import Mathlib

/-!
Shallow embedding of the siteswap-generator repository (TypeScript):
  * `parseSiteswap` from the validator module (src/unnamed/part_000),
  * `buildSimulationPlan` from src/src/lib/simulation.ts.
JavaScript strings are modelled as `String`/`List Char`, numbers as `Nat`
(all quantities in this code are non-negative integers; the float division
`sum / period` guarded by `Number.isInteger` is modelled as the divisibility
test `sum % period = 0` followed by exact `Nat` division, which agrees with
the source on these magnitudes), the JS `Map` as an insertion-ordered
association list, and `throw` as `Except.error` carrying the thrown message.
-/

/-- The JS whitespace class `\s` (the characters `replace(/\s+/g, "")`
removes); ASCII part plus the Unicode space separators. -/
def isJsWhitespace (c : Char) : Bool :=
  [' ', '\t', '\n', '\x0b', '\x0c', '\r', '\u00A0', '\u1680',
    '\u2028', '\u2029', '\u202F', '\u205F', '\u3000', '\uFEFF'].contains c
  || (0x2000 ≤ c.val.toNat && c.val.toNat ≤ 0x200A)

/-- `const CHAR_MAP = "0123456789abcdefghijklmnopqrstuvwxyz"`. -/
def CHAR_MAP : List Char :=
  "0123456789abcdefghijklmnopqrstuvwxyz".toList

/-- `CHAR_MAP.indexOf(char)`, with `none` for the `-1` case. -/
def charValue (c : Char) : Option Nat :=
  CHAR_MAP.findIdx? (fun x => x == c)

/-- `export type SiteswapData`. -/
structure SiteswapData where
  pattern : List Nat
  period : Nat
  balls : Nat
  maxThrow : Nat
deriving DecidableEq, Repr

def emptyPatternMsg : String := "Enter at least one throw height."

def invalidCharMsg (c : Char) : String :=
  "Unsupported character \"" ++ String.singleton c ++ "\". Use 0-9 or a-z for throws."

def allZeroMsg : String := "Pattern cannot be all zeros."

def nonIntegerAverageMsg : String :=
  "Average throw height must be an integer (invalid pattern)."

def landingCollisionMsg : String :=
  "Two balls collide in the same beat (invalid pattern)."

def zeroBallsMsg : String := "Pattern must include at least one ball."

def landingConflictMsg : String :=
  "Landing conflict detected while building flight plan."

/-- The character-mapping loop of `parseSiteswap`: each character through
`CHAR_MAP`, throwing on the first unmapped one. -/
def mapChars : List Char → Except String (List Nat)
  | [] => .ok []
  | c :: rest =>
    match charValue c with
    | none => .error (invalidCharMsg c)
    | some value =>
      match mapChars rest with
      | .error e => .error e
      | .ok tail => .ok (value :: tail)

/-- The `pattern.forEach` landing-collision loop of `parseSiteswap`:
`index` is the position of the head of the remaining list, `landings` the
set (as a list) built so far. -/
def checkLandingsAux (period : Nat) : List Nat → Nat → List Nat → Except String Unit
  | [], _, _ => .ok ()
  | value :: rest, index, landings =>
    if value = 0 then
      checkLandingsAux period rest (index + 1) landings
    else
      let landing := (index + value) % period
      if landings.contains landing then
        .error landingCollisionMsg
      else
        checkLandingsAux period rest (index + 1) (landings ++ [landing])

/-- `export function parseSiteswap(rawInput: string): SiteswapData`. -/
def parseSiteswap (rawInput : String) : Except String SiteswapData :=
  let cleaned := (rawInput.toList.map Char.toLower).filter (fun c => !(isJsWhitespace c))
  if cleaned.isEmpty then
    .error emptyPatternMsg
  else
    match mapChars cleaned with
    | .error e => .error e
    | .ok pattern =>
      if pattern.all (fun value => value == 0) then
        .error allZeroMsg
      else
        let period := pattern.length
        let sum := pattern.foldl (fun acc value => acc + value) 0
        if sum % period ≠ 0 then
          .error nonIntegerAverageMsg
        else
          let balls := sum / period
          match checkLandingsAux period pattern 0 [] with
          | .error e => .error e
          | .ok _ =>
            if balls < 1 then
              .error zeroBallsMsg
            else
              .ok { pattern := pattern, period := period, balls := balls,
                    maxThrow := pattern.foldl Nat.max 0 }

/-- `export type Hand = "left" | "right"`. -/
inductive Hand where
  | left
  | right
deriving DecidableEq, Repr

/-- `export type Flight`. -/
structure Flight where
  id : String
  ballId : Nat
  throwValue : Nat
  startBeat : Nat
  endBeat : Nat
  fromHand : Hand
  toHand : Hand
deriving DecidableEq, Repr

/-- `export type SimulationPlan`. -/
structure SimulationPlan where
  flights : List Flight
  beats : Nat
deriving DecidableEq, Repr

/-- `catchAssignments.get(k)` (on a JS `Map` modelled as an
insertion-ordered association list; `has` is `isSome` of this). -/
def mapLookup : List (Nat × Nat) → Nat → Option Nat
  | [], _ => none
  | e :: rest, k => if e.1 = k then some e.2 else mapLookup rest k

/-- `catchAssignments.delete(k)`. -/
def mapErase : List (Nat × Nat) → Nat → List (Nat × Nat)
  | [], _ => []
  | e :: rest, k => if e.1 = k then mapErase rest k else e :: mapErase rest k

/-- `catchAssignments.set(k, v)`; only ever called with a key not in the
map, where JS `Map.set` appends. -/
def mapInsert (m : List (Nat × Nat)) (k v : Nat) : List (Nat × Nat) :=
  m ++ [(k, v)]

/-- `catchAssignments.has(k)`. -/
def mapHas (m : List (Nat × Nat)) (k : Nat) : Bool :=
  (mapLookup m k).isSome

/-- The loop state of `buildSimulationPlan`: the flights accumulated so
far, the pending-landing `Map`, and the `nextBallId` counter. -/
structure PlanState where
  flights : List Flight
  catchAssignments : List (Nat × Nat)
  nextBallId : Nat
deriving Repr

/-- Lines 35-46 of simulation.ts: resolve the ball identity at `beat`,
returning `(ballId, updated map, updated nextBallId)`. -/
def resolveBall (balls : Nat) (catchAssignments : List (Nat × Nat))
    (nextBallId beat : Nat) : Nat × List (Nat × Nat) × Nat :=
  match mapLookup catchAssignments beat with
  | some v => (v, mapErase catchAssignments beat, nextBallId)
  | none =>
    if nextBallId < balls then
      (nextBallId, catchAssignments, nextBallId + 1)
    else
      (beat % balls, catchAssignments, nextBallId)

/-- One iteration of the `for (let beat = 0; ...)` loop of
`buildSimulationPlan`. -/
def stepBeat (pattern : List Nat) (balls : Nat) (st : PlanState) (beat : Nat) :
    Except String PlanState :=
  let period := pattern.length
  let throwValue := pattern.getD (beat % period) 0
  let fromHand : Hand := if beat % 2 = 0 then Hand.left else Hand.right
  let toHand : Hand := if (beat + throwValue) % 2 = 0 then Hand.left else Hand.right
  let r := resolveBall balls st.catchAssignments st.nextBallId beat
  let ballId := r.1
  let m1 := r.2.1
  let next1 := r.2.2
  if throwValue > 0 then
    let landingBeat := beat + throwValue
    if mapHas m1 landingBeat then
      .error landingConflictMsg
    else
      .ok { flights := st.flights ++
              [{ id := Nat.repr ballId ++ "-" ++ Nat.repr beat,
                 ballId := ballId, throwValue := throwValue,
                 startBeat := beat, endBeat := landingBeat,
                 fromHand := fromHand, toHand := toHand }],
            catchAssignments := mapInsert m1 landingBeat ballId,
            nextBallId := next1 }
  else
    .ok { flights := st.flights, catchAssignments := m1, nextBallId := next1 }

/-- The loop of `buildSimulationPlan` run over beats `0 .. n-1`. -/
def runBeats (pattern : List Nat) (balls : Nat) : Nat → Except String PlanState
  | 0 => .ok { flights := [], catchAssignments := [], nextBallId := 0 }
  | n + 1 =>
    match runBeats pattern balls n with
    | .error e => .error e
    | .ok st => stepBeat pattern balls st n

/-- `export function buildSimulationPlan(pattern, balls, loops)`. -/
def buildSimulationPlan (pattern : List Nat) (balls : Nat) (loops : Nat) :
    Except String SimulationPlan :=
  let period := pattern.length
  let totalBeats := max (loops * period) period
  match runBeats pattern balls totalBeats with
  | .error e => .error e
  | .ok st => .ok { flights := st.flights, beats := totalBeats }

/-- The TypeScript signature defaults `loops = 6`. -/
def buildSimulationPlanDefault (pattern : List Nat) (balls : Nat) :
    Except String SimulationPlan :=
  buildSimulationPlan pattern balls 6

/-- `pattern[beat % period]`, the throw height the planner reads at a beat. -/
def throwAt (pattern : List Nat) (beat : Nat) : Nat :=
  pattern.getD (beat % pattern.length) 0

/-- The guard of the `beat % balls` fallback branch (lines 43-45 of
simulation.ts) at beat `beat` of a run of `buildSimulationPlan`: the loop
reached beat `beat` without error, no pending landing is mapped to it, and
all `balls` identifiers have been introduced. -/
def fallbackFires (pattern : List Nat) (balls : Nat) (beat : Nat) : Bool :=
  match runBeats pattern balls beat with
  | .ok st => (mapLookup st.catchAssignments beat).isNone && balls ≤ st.nextBallId
  | .error _ => false

/-- The flights of a planning result (`[]` for the thrown case). -/
def planFlights (r : Except String SimulationPlan) : List Flight :=
  match r with
  | .ok plan => plan.flights
  | .error _ => []

/-- The landing-slot distinctness property §3 of the spec states for
validated patterns: positive-height indices have pairwise distinct landing
slots modulo the period. -/
def landingDistinct (pattern : List Nat) : Prop :=
  ∀ i j, i < pattern.length → j < pattern.length → i ≠ j →
    0 < pattern.getD i 0 → 0 < pattern.getD j 0 →
    (i + pattern.getD i 0) % pattern.length ≠ (j + pattern.getD j 0) % pattern.length

/-- The loop invariant of `buildSimulationPlan` after the beats `0 .. n-1`
have been processed without error. -/
structure RunInv (pattern : List Nat) (balls : Nat) (n : Nat) (st : PlanState) : Prop where
  startBeats : st.flights.map (fun f => f.startBeat) =
    (List.range n).filter (fun b => decide (0 < throwAt pattern b))
  flightFields : ∀ f ∈ st.flights,
    f.endBeat = f.startBeat + f.throwValue ∧
    f.throwValue = throwAt pattern f.startBeat ∧
    f.fromHand = (if f.startBeat % 2 = 0 then Hand.left else Hand.right) ∧
    f.toHand = (if (f.startBeat + f.throwValue) % 2 = 0 then Hand.left else Hand.right) ∧
    f.startBeat < n
  keys : ∀ l, (mapLookup st.catchAssignments l).isSome = true ↔
    ∃ b, b < n ∧ 0 < throwAt pattern b ∧ b + throwAt pattern b = l ∧ n ≤ l
  values : 1 ≤ balls → ∀ l v, mapLookup st.catchAssignments l = some v → v < balls
  ballIds : 1 ≤ balls → ∀ f ∈ st.flights, f.ballId < balls

/-- A concrete plan — the run of `buildSimulationPlan [3] 3 2`
(the spec's §8 "simple plan" scenario) — used to evaluate the theorems
below on explicit inputs. -/
def exampleFlightA : Flight :=
  { id := "0-0", ballId := 0, throwValue := 3, startBeat := 0, endBeat := 3,
    fromHand := Hand.left, toHand := Hand.right }

/-- The second flight of the same concrete run. -/
def exampleFlightB : Flight :=
  { id := "1-1", ballId := 1, throwValue := 3, startBeat := 1, endBeat := 4,
    fromHand := Hand.right, toHand := Hand.left }

/-- The full result of `buildSimulationPlan [3] 3 2`. -/
def examplePlan : SimulationPlan :=
  { flights := [exampleFlightA, exampleFlightB], beats := 2 }

/-! ### Association-list lemmas for the pending-landing `Map` -/

theorem mapLookup_cons (a b : Nat) (tl : List (Nat × Nat)) (l : Nat) :
    mapLookup ((a, b) :: tl) l = if a = l then some b else mapLookup tl l := rfl

theorem mapErase_cons (a b : Nat) (tl : List (Nat × Nat)) (k : Nat) :
    mapErase ((a, b) :: tl) k =
      if a = k then mapErase tl k else (a, b) :: mapErase tl k := rfl

theorem mapLookup_erase (m : List (Nat × Nat)) (k l : Nat) :
    mapLookup (mapErase m k) l = if l = k then none else mapLookup m l := by
  induction m with
  | nil => simp [mapLookup, mapErase]
  | cons hd tl ih =>
    obtain ⟨a, b⟩ := hd
    rw [mapErase_cons]
    by_cases hak : a = k
    · rw [if_pos hak, ih, mapLookup_cons]
      by_cases hlk : l = k
      · simp [hlk]
      · have hal : ¬a = l := by omega
        simp [hlk, hal]
    · rw [if_neg hak, mapLookup_cons, mapLookup_cons]
      by_cases hal : a = l
      · have hlk : ¬l = k := by omega
        simp [hal, hlk]
      · simp [hal, ih]

theorem mapErase_absent (m : List (Nat × Nat)) (k : Nat)
    (h : mapLookup m k = none) : mapErase m k = m := by
  induction m with
  | nil => rfl
  | cons hd tl ih =>
    obtain ⟨a, b⟩ := hd
    rw [mapLookup_cons] at h
    by_cases hak : a = k
    · simp [hak] at h
    · simp only [if_neg hak] at h
      rw [mapErase_cons, if_neg hak, ih h]

theorem mapLookup_insert (m : List (Nat × Nat)) (k v l : Nat) :
    mapLookup (mapInsert m k v) l =
      match mapLookup m l with
      | some w => some w
      | none => if k = l then some v else none := by
  rw [mapInsert]
  induction m with
  | nil => simp [mapLookup]
  | cons hd tl ih =>
    obtain ⟨a, b⟩ := hd
    rw [List.cons_append, mapLookup_cons, mapLookup_cons]
    by_cases hal : a = l
    · simp [hal]
    · simp [hal, ih]

theorem mapLookup_insert_isSome (m : List (Nat × Nat)) (k v l : Nat) :
    (mapLookup (mapInsert m k v) l).isSome = true ↔
      (mapLookup m l).isSome = true ∨ l = k := by
  rw [mapLookup_insert]
  cases h : mapLookup m l with
  | some w => simp
  | none =>
    by_cases hkl : k = l
    · simp [hkl]
    · simp [if_neg hkl, Ne.symm hkl]

theorem mapLookup_erase_isSome (m : List (Nat × Nat)) (k l : Nat) :
    (mapLookup (mapErase m k) l).isSome = true ↔
      l ≠ k ∧ (mapLookup m l).isSome = true := by
  rw [mapLookup_erase]
  by_cases h : l = k <;> simp [h]

theorem mapLookup_insert_values (m : List (Nat × Nat)) (k v l w : Nat)
    (h : mapLookup (mapInsert m k v) l = some w) :
    mapLookup m l = some w ∨ w = v := by
  rw [mapLookup_insert] at h
  cases hm : mapLookup m l with
  | some u => rw [hm] at h; exact Or.inl h
  | none =>
    rw [hm] at h
    by_cases hkl : k = l
    · simp [hkl] at h; exact Or.inr h.symm
    · simp [hkl] at h

theorem mapLookup_erase_values (m : List (Nat × Nat)) (k l w : Nat)
    (h : mapLookup (mapErase m k) l = some w) : mapLookup m l = some w := by
  rw [mapLookup_erase] at h
  by_cases hlk : l = k
  · simp [hlk] at h
  · rw [if_neg hlk] at h
    exact h

/-! ### Lemmas about `resolveBall` -/

theorem resolveBall_map (balls : Nat) (m : List (Nat × Nat)) (next beat : Nat) :
    (resolveBall balls m next beat).2.1 = mapErase m beat := by
  rw [resolveBall]
  cases h : mapLookup m beat with
  | some v => rfl
  | none =>
    have := mapErase_absent m beat h
    by_cases hn : next < balls <;> simp [hn, this]

theorem resolveBall_lt (balls : Nat) (m : List (Nat × Nat)) (next beat : Nat)
    (hb : 1 ≤ balls) (hv : ∀ l v, mapLookup m l = some v → v < balls) :
    (resolveBall balls m next beat).1 < balls := by
  rw [resolveBall]
  cases h : mapLookup m beat with
  | some v => exact hv beat v h
  | none =>
    by_cases hn : next < balls
    · rw [if_pos hn]
      exact hn
    · rw [if_neg hn]
      exact Nat.mod_lt beat hb

/-! ### The loop invariant of `buildSimulationPlan` -/

theorem throwAt_eq (pattern : List Nat) (b : Nat) :
    throwAt pattern b = pattern.getD (b % pattern.length) 0 := rfl

theorem stepBeat_inv (pattern : List Nat) (balls n : Nat) (st st' : PlanState)
    (hinv : RunInv pattern balls n st)
    (hstep : stepBeat pattern balls st n = .ok st') :
    RunInv pattern balls (n + 1) st' := by
  have hrmap : (resolveBall balls st.catchAssignments st.nextBallId n).2.1 =
      mapErase st.catchAssignments n := resolveBall_map _ _ _ _
  simp only [stepBeat] at hstep
  split at hstep
  next ht =>
    split at hstep
    next hch => simp at hstep
    next hch =>
      injection hstep with hA
      subst hA
      refine ⟨?_, ?_, ?_, ?_, ?_⟩
      · dsimp only
        rw [List.map_append, hinv.startBeats, List.range_succ, List.filter_append]
        have hd : decide (0 < throwAt pattern n) = true := by
          rw [throwAt_eq]
          exact decide_eq_true ht
        simp [hd]
      · intro f hf
        dsimp only at hf
        rcases List.mem_append.1 hf with hold | hnew
        · obtain ⟨h1, h2, h3, h4, h5⟩ := hinv.flightFields f hold
          exact ⟨h1, h2, h3, h4, by omega⟩
        · simp only [List.mem_singleton] at hnew
          subst hnew
          refine ⟨rfl, rfl, rfl, rfl, ?_⟩
          show n < n + 1
          omega
      · intro l
        dsimp only
        rw [mapLookup_insert_isSome, hrmap, mapLookup_erase_isSome, hinv.keys l]
        constructor
        · rintro (⟨hln, ⟨b, hb, htb, heq, hge⟩⟩ | hl)
          · exact ⟨b, by omega, htb, heq, by omega⟩
          · refine ⟨n, by omega, ?_, ?_, ?_⟩
            · rw [throwAt_eq]
              exact ht
            · rw [throwAt_eq]
              omega
            · omega
        · rintro ⟨b, hb, htb, heq, hge⟩
          by_cases hbn : b = n
          · subst hbn
            right
            rw [throwAt_eq] at heq
            omega
          · exact Or.inl ⟨by omega, ⟨b, by omega, htb, heq, by omega⟩⟩
      · intro hb l v hv
        dsimp only at hv
        rcases mapLookup_insert_values _ _ _ _ _ hv with hm | hval
        · rw [hrmap] at hm
          exact hinv.values hb l v (mapLookup_erase_values _ _ _ _ hm)
        · rw [hval]
          exact resolveBall_lt balls st.catchAssignments st.nextBallId n hb (hinv.values hb)
      · intro hb f hf
        dsimp only at hf
        rcases List.mem_append.1 hf with hold | hnew
        · exact hinv.ballIds hb f hold
        · simp only [List.mem_singleton] at hnew
          subst hnew
          exact resolveBall_lt balls st.catchAssignments st.nextBallId n hb (hinv.values hb)
  next ht =>
    injection hstep with hA
    subst hA
    refine ⟨?_, ?_, ?_, ?_, ?_⟩
    · dsimp only
      rw [hinv.startBeats, List.range_succ, List.filter_append]
      have hd : decide (0 < throwAt pattern n) = false := by
        rw [throwAt_eq]
        exact decide_eq_false ht
      simp [hd]
    · intro f hf
      dsimp only at hf
      obtain ⟨h1, h2, h3, h4, h5⟩ := hinv.flightFields f hf
      exact ⟨h1, h2, h3, h4, by omega⟩
    · intro l
      dsimp only
      rw [hrmap, mapLookup_erase_isSome, hinv.keys l]
      constructor
      · rintro ⟨hln, ⟨b, hb, htb, heq, hge⟩⟩
        exact ⟨b, by omega, htb, heq, by omega⟩
      · rintro ⟨b, hb, htb, heq, hge⟩
        by_cases hbn : b = n
        · subst hbn
          rw [throwAt_eq] at htb
          exact absurd htb ht
        · exact ⟨by omega, ⟨b, by omega, htb, heq, by omega⟩⟩
    · intro hb l v hv
      dsimp only at hv
      rw [hrmap] at hv
      exact hinv.values hb l v (mapLookup_erase_values _ _ _ _ hv)
    · intro hb f hf
      dsimp only at hf
      exact hinv.ballIds hb f hf

theorem runBeats_inv (pattern : List Nat) (balls : Nat) :
    ∀ (n : Nat) (st : PlanState), runBeats pattern balls n = .ok st →
      RunInv pattern balls n st
  | 0, st, h => by
    injection h with h
    subst h
    refine ⟨by simp, by simp, ?_, by simp [mapLookup], by simp⟩
    intro l
    simp [mapLookup]
  | n + 1, st, h => by
    rw [runBeats] at h
    cases hr : runBeats pattern balls n with
    | error e =>
      rw [hr] at h
      simp at h
    | ok st0 =>
      rw [hr] at h
      exact stepBeat_inv pattern balls n st0 st (runBeats_inv pattern balls n st0 hr) h

/-! ### The planner never hits the landing-conflict branch on a
landing-distinct pattern -/

theorem stepBeat_ok (pattern : List Nat) (balls n : Nat) (st : PlanState)
    (hne : pattern ≠ []) (hd : landingDistinct pattern)
    (hinv : RunInv pattern balls n st) :
    ∃ st', stepBeat pattern balls st n = .ok st' := by
  have hrmap : (resolveBall balls st.catchAssignments st.nextBallId n).2.1 =
      mapErase st.catchAssignments n := resolveBall_map _ _ _ _
  simp only [stepBeat]
  by_cases ht : pattern.getD (n % pattern.length) 0 > 0
  · rw [if_pos ht]
    cases hch : mapHas (resolveBall balls st.catchAssignments st.nextBallId n).2.1
        (n + pattern.getD (n % pattern.length) 0) with
    | false =>
      rw [if_neg (by simp : ¬(false = true))]
      exact ⟨_, rfl⟩
    | true =>
      exfalso
      rw [mapHas, hrmap, mapLookup_erase_isSome] at hch
      obtain ⟨b, hb, htb, heq, hge⟩ := (hinv.keys _).1 hch.2
      rw [throwAt_eq] at htb heq
      have hp : 0 < pattern.length := List.length_pos.2 hne
      by_cases hij : b % pattern.length = n % pattern.length
      · rw [hij] at heq
        omega
      · apply hd (b % pattern.length) (n % pattern.length)
          (Nat.mod_lt _ hp) (Nat.mod_lt _ hp) hij htb ht
        calc (b % pattern.length + pattern.getD (b % pattern.length) 0) % pattern.length
            = (b + pattern.getD (b % pattern.length) 0) % pattern.length := by
              rw [Nat.mod_add_mod]
          _ = (n + pattern.getD (n % pattern.length) 0) % pattern.length := by
              rw [heq]
          _ = (n % pattern.length + pattern.getD (n % pattern.length) 0) % pattern.length := by
              rw [Nat.mod_add_mod]
  · rw [if_neg ht]
    exact ⟨_, rfl⟩

theorem runBeats_ok_of_distinct (pattern : List Nat) (hne : pattern ≠ [])
    (hd : landingDistinct pattern) (balls : Nat) :
    ∀ n, ∃ st, runBeats pattern balls n = .ok st
  | 0 => ⟨_, rfl⟩
  | n + 1 => by
    obtain ⟨st, hst⟩ := runBeats_ok_of_distinct pattern hne hd balls n
    obtain ⟨st', hst'⟩ :=
      stepBeat_ok pattern balls n st hne hd (runBeats_inv pattern balls n st hst)
    refine ⟨st', ?_⟩
    rw [runBeats, hst]
    exact hst'

/-! ### The validator's landing-collision check -/

theorem checkLandingsAux_ok (period : Nat) :
    ∀ (l : List Nat) (start : Nat) (acc : List Nat),
      checkLandingsAux period l start acc = .ok () →
      (∀ i, i < l.length → 0 < l.getD i 0 →
        ((start + i + l.getD i 0) % period) ∉ acc) ∧
      (∀ i j, i < j → j < l.length → 0 < l.getD i 0 → 0 < l.getD j 0 →
        (start + i + l.getD i 0) % period ≠ (start + j + l.getD j 0) % period)
  | [], start, acc, h => by
    constructor
    · intro i hi
      simp at hi
    · intro i j hij hj
      simp at hj
  | value :: rest, start, acc, h => by
    simp only [checkLandingsAux] at h
    by_cases hv : value = 0
    · rw [if_pos hv] at h
      obtain ⟨ih1, ih2⟩ := checkLandingsAux_ok period rest (start + 1) acc h
      constructor
      · intro i hi hpos
        match i with
        | 0 => simp [hv] at hpos
        | i' + 1 =>
          simp only [List.getD_cons_succ] at hpos ⊢
          have harith : start + (i' + 1) = start + 1 + i' := by omega
          rw [harith]
          exact ih1 i' (by simpa using hi) hpos
      · intro i j hij hj hpi hpj
        match i, j with
        | 0, _ => simp [hv] at hpi
        | i' + 1, j' + 1 =>
          simp only [List.getD_cons_succ] at hpi hpj ⊢
          have ha1 : start + (i' + 1) = start + 1 + i' := by omega
          have ha2 : start + (j' + 1) = start + 1 + j' := by omega
          rw [ha1, ha2]
          exact ih2 i' j' (by omega) (by simpa using hj) hpi hpj
    · rw [if_neg hv] at h
      cases hc : acc.contains ((start + value) % period) with
      | true =>
        rw [hc, if_pos rfl] at h
        simp at h
      | false =>
        rw [hc, if_neg (by simp : ¬(false = true))] at h
        obtain ⟨ih1, ih2⟩ :=
          checkLandingsAux_ok period rest (start + 1) (acc ++ [(start + value) % period]) h
        have hcmem : ((start + value) % period) ∉ acc := by
          intro hmem
          rw [show acc.contains ((start + value) % period) = true by
            exact List.elem_iff.2 hmem] at hc
          simp at hc
        constructor
        · intro i hi hpos
          match i with
          | 0 =>
            have harith : start + 0 + value = start + value := by omega
            rw [List.getD_cons_zero, harith]
            exact hcmem
          | i' + 1 =>
            simp only [List.getD_cons_succ] at hpos ⊢
            have harith : start + (i' + 1) = start + 1 + i' := by omega
            rw [harith]
            intro hmem
            exact ih1 i' (by simpa using hi) hpos (List.mem_append.2 (Or.inl hmem))
        · intro i j hij hj hpi hpj
          match i, j with
          | 0, j' + 1 =>
            simp only [List.getD_cons_zero, List.getD_cons_succ] at hpi hpj ⊢
            have ha0 : start + 0 + value = start + value := by omega
            have ha2 : start + (j' + 1) = start + 1 + j' := by omega
            rw [ha0, ha2]
            intro hcon
            have hnmem := ih1 j' (by simpa using hj) hpj
            exact hnmem (List.mem_append.2 (Or.inr (by simp [hcon])))
          | i' + 1, j' + 1 =>
            simp only [List.getD_cons_succ] at hpi hpj ⊢
            have ha1 : start + (i' + 1) = start + 1 + i' := by omega
            have ha2 : start + (j' + 1) = start + 1 + j' := by omega
            rw [ha1, ha2]
            exact ih2 i' j' (by omega) (by simpa using hj) hpi hpj

theorem landingDistinct_of_check (pattern : List Nat)
    (h : checkLandingsAux pattern.length pattern 0 [] = .ok ()) :
    landingDistinct pattern := by
  obtain ⟨_, h2⟩ := checkLandingsAux_ok pattern.length pattern 0 [] h
  intro i j hi hj hij hpi hpj
  rcases Nat.lt_or_ge i j with hlt | hge
  · have h' := h2 i j hlt hj hpi hpj
    simp only [Nat.zero_add] at h'
    exact h'
  · have hlt : j < i := by omega
    have h' := h2 j i hlt hi hpj hpi
    simp only [Nat.zero_add] at h'
    exact fun hcon => h' hcon.symm

theorem checkLandingsAux_error (period : Nat) :
    ∀ (l : List Nat) (start : Nat) (acc : List Nat) (e : String),
      checkLandingsAux period l start acc = .error e → e = landingCollisionMsg
  | [], _, _, e, h => by simp [checkLandingsAux] at h
  | value :: rest, start, acc, e, h => by
    simp only [checkLandingsAux] at h
    by_cases hv : value = 0
    · rw [if_pos hv] at h
      exact checkLandingsAux_error period rest (start + 1) acc e h
    · rw [if_neg hv] at h
      cases hc : acc.contains ((start + value) % period) with
      | true =>
        rw [hc, if_pos rfl] at h
        simp only [Except.error.injEq] at h
        exact h.symm
      | false =>
        rw [hc, if_neg (by simp : ¬(false = true))] at h
        exact checkLandingsAux_error period rest (start + 1)
          (acc ++ [(start + value) % period]) e h

theorem mapChars_error : ∀ (l : List Char) (e : String),
    mapChars l = .error e → ∃ c, e = invalidCharMsg c
  | [], e, h => by simp [mapChars] at h
  | c :: rest, e, h => by
    simp only [mapChars] at h
    cases hcv : charValue c with
    | none =>
      rw [hcv] at h
      simp only [Except.error.injEq] at h
      exact ⟨c, h.symm⟩
    | some v =>
      rw [hcv] at h
      cases hmc : mapChars rest with
      | error e' =>
        rw [hmc] at h
        simp only [Except.error.injEq] at h
        obtain ⟨c', hc'⟩ := mapChars_error rest e' hmc
        exact ⟨c', by rw [← h]; exact hc'⟩
      | ok tail =>
        rw [hmc] at h
        simp at h

/-! ### Arithmetic facts about the validator's sum -/

theorem pos_foldl_add : ∀ (l : List Nat) (a : Nat),
    (∃ x ∈ l, 0 < x) ∨ 0 < a → 0 < l.foldl (fun acc value => acc + value) a
  | [], a, h => by
    rcases h with ⟨x, hx, _⟩ | ha
    · simp at hx
    · simpa using ha
  | x :: rest, a, h => by
    rw [List.foldl_cons]
    apply pos_foldl_add rest (a + x)
    rcases h with ⟨y, hy, hpos⟩ | ha
    · rcases List.mem_cons.1 hy with rfl | hmem
      · right
        omega
      · left
        exact ⟨y, hmem, hpos⟩
    · right
      omega

/-! ### Inversion of a successful parse -/

theorem parseSiteswap_ok_inv (s : String) (d : SiteswapData)
    (h : parseSiteswap s = .ok d) :
    d.pattern ≠ [] ∧ d.period = d.pattern.length ∧ 1 ≤ d.balls ∧
    checkLandingsAux d.pattern.length d.pattern 0 [] = .ok () := by
  simp only [parseSiteswap] at h
  split at h
  · simp at h
  · split at h
    · simp at h
    next pattern0 hmc =>
      split at h
      · simp at h
      next hall =>
        split at h
        · simp at h
        next hmod =>
          split at h
          next e hchk => simp at h
          next u hchk =>
            split at h
            · simp at h
            next hballs =>
              injection h with h
              subst h
              have hne : pattern0 ≠ [] := by
                rintro rfl
                simp at hall
              refine ⟨hne, rfl, ?_, ?_⟩
              · dsimp only
                omega
              · cases u
                exact hchk

/-! ### Inversion of a successful planning call -/

theorem buildSimulationPlan_ok (pattern : List Nat) (balls loops : Nat)
    (plan : SimulationPlan)
    (h : buildSimulationPlan pattern balls loops = .ok plan) :
    ∃ st, runBeats pattern balls (max (loops * pattern.length) pattern.length) = .ok st ∧
      plan.flights = st.flights ∧
      plan.beats = max (loops * pattern.length) pattern.length := by
  simp only [buildSimulationPlan] at h
  cases hr : runBeats pattern balls (max (loops * pattern.length) pattern.length) with
  | error e =>
    rw [hr] at h
    simp at h
  | ok st =>
    rw [hr] at h
    injection h with h
    subst h
    exact ⟨st, rfl, rfl, rfl⟩

/-! ### The claims -/

/-- **C1**: for every pattern accepted by `parseSiteswap`, planning with the
derived ball count and any repetition count never reaches the
landing-conflict branch: `buildSimulationPlan` returns a plan instead of
throwing the landing-conflict error. -/
theorem accepted_pattern_never_conflicts (s : String) (d : SiteswapData) (loops : Nat)
    (h : parseSiteswap s = .ok d) :
    ∃ plan, buildSimulationPlan d.pattern d.balls loops = .ok plan := by
  obtain ⟨hne, hper, hballs, hchk⟩ := parseSiteswap_ok_inv s d h
  have hd := landingDistinct_of_check d.pattern hchk
  obtain ⟨st, hst⟩ := runBeats_ok_of_distinct d.pattern hne hd d.balls
    (max (loops * d.pattern.length) d.pattern.length)
  refine ⟨{ flights := st.flights,
            beats := max (loops * d.pattern.length) d.pattern.length }, ?_⟩
  simp only [buildSimulationPlan]
  rw [hst]

/-- Evaluation witness for C1 at the accepted input `"3"` with
`repetitions = 2`. -/
theorem accepted_pattern_never_conflicts_witness :
    ∃ plan, buildSimulationPlan [3] 3 2 = .ok plan :=
  accepted_pattern_never_conflicts ("3") ⟨[3], 1, 3, 3⟩ 2 rfl

/-- **C3**: for every plan produced by `buildSimulationPlan`, the list of
`startBeat` values is exactly the list of beats in `[0, totalBeats)` whose
throw height `pattern[b mod period]` is positive; in particular the
`startBeat` values are strictly increasing, hence unique. -/
theorem plan_startBeats_exact (pattern : List Nat) (balls loops : Nat)
    (plan : SimulationPlan) (_hne : pattern ≠ [])
    (h : buildSimulationPlan pattern balls loops = .ok plan) :
    plan.flights.map (fun f => f.startBeat) =
      (List.range plan.beats).filter (fun b => decide (0 < throwAt pattern b)) ∧
    (plan.flights.map (fun f => f.startBeat)).Pairwise (· < ·) := by
  obtain ⟨st, hst, hfl, hbeats⟩ := buildSimulationPlan_ok pattern balls loops plan h
  have hinv := runBeats_inv pattern balls _ st hst
  constructor
  · rw [hfl, hbeats]
    exact hinv.startBeats
  · rw [hfl, hinv.startBeats]
    exact (List.pairwise_lt_range _).filter _

/-- Evaluation witness for C3 on the concrete run `buildSimulationPlan [3] 3 2`. -/
theorem plan_startBeats_exact_witness :
    examplePlan.flights.map (fun f => f.startBeat) =
      (List.range examplePlan.beats).filter (fun b => decide (0 < throwAt [3] b)) ∧
    (examplePlan.flights.map (fun f => f.startBeat)).Pairwise (· < ·) :=
  plan_startBeats_exact [3] 3 2 examplePlan (by decide) rfl

/-- **C4**: with `ballCount ≥ 1`, every emitted flight's `ballId` lies in
`[0, ballCount)`, whichever of the three identity sources produced it. -/
theorem plan_ballId_in_range (pattern : List Nat) (balls loops : Nat)
    (plan : SimulationPlan) (hb : 1 ≤ balls)
    (h : buildSimulationPlan pattern balls loops = .ok plan) :
    ∀ f ∈ plan.flights, f.ballId < balls := by
  obtain ⟨st, hst, hfl, _⟩ := buildSimulationPlan_ok pattern balls loops plan h
  rw [hfl]
  exact (runBeats_inv pattern balls _ st hst).ballIds hb

/-- Evaluation witness for C4 on the first flight of the concrete run. -/
theorem plan_ballId_in_range_witness : exampleFlightA.ballId < 3 :=
  plan_ballId_in_range [3] 3 2 examplePlan (by decide) rfl exampleFlightA (by decide)

/-- **C5**: every emitted flight's hands follow beat parity: `fromHand` is
left exactly when `startBeat` is even, `toHand` is left exactly when
`startBeat + throwHeight` is even; odd heights cross hands, even heights
return to the same hand. -/
theorem plan_hand_parity (pattern : List Nat) (balls loops : Nat)
    (plan : SimulationPlan)
    (h : buildSimulationPlan pattern balls loops = .ok plan) :
    ∀ f ∈ plan.flights,
      (f.fromHand = Hand.left ↔ f.startBeat % 2 = 0) ∧
      (f.toHand = Hand.left ↔ (f.startBeat + f.throwValue) % 2 = 0) ∧
      (f.throwValue % 2 = 1 → f.toHand ≠ f.fromHand) ∧
      (f.throwValue % 2 = 0 → f.toHand = f.fromHand) := by
  obtain ⟨st, hst, hfl, _⟩ := buildSimulationPlan_ok pattern balls loops plan h
  rw [hfl]
  intro f hf
  obtain ⟨h1, h2, h3, h4, h5⟩ := (runBeats_inv pattern balls _ st hst).flightFields f hf
  refine ⟨?_, ?_, ?_, ?_⟩
  · rw [h3]
    by_cases hp : f.startBeat % 2 = 0 <;> simp [hp]
  · rw [h4]
    by_cases hp : (f.startBeat + f.throwValue) % 2 = 0 <;> simp [hp]
  · intro hodd
    rw [h3, h4]
    by_cases hp : f.startBeat % 2 = 0
    · rw [if_pos hp, if_neg (by omega)]
      decide
    · rw [if_neg hp, if_pos (by omega)]
      decide
  · intro heven
    rw [h3, h4]
    by_cases hp : f.startBeat % 2 = 0
    · rw [if_pos hp, if_pos (by omega)]
    · rw [if_neg hp, if_neg (by omega)]

/-- Evaluation witness for C5 on the first flight of the concrete run. -/
theorem plan_hand_parity_witness :
    (exampleFlightA.fromHand = Hand.left ↔ exampleFlightA.startBeat % 2 = 0) ∧
    (exampleFlightA.toHand = Hand.left ↔
      (exampleFlightA.startBeat + exampleFlightA.throwValue) % 2 = 0) ∧
    (exampleFlightA.throwValue % 2 = 1 → exampleFlightA.toHand ≠ exampleFlightA.fromHand) ∧
    (exampleFlightA.throwValue % 2 = 0 → exampleFlightA.toHand = exampleFlightA.fromHand) :=
  plan_hand_parity [3] 3 2 examplePlan rfl exampleFlightA (by decide)

/-- **C6**: the returned plan simulates
`totalBeats = max(repetitions * period, period)` beats — at least one full
period — and the omitted-repetitions form is the call with 6. -/
theorem plan_totalBeats (pattern : List Nat) (balls loops : Nat)
    (plan : SimulationPlan) (_hne : pattern ≠ [])
    (h : buildSimulationPlan pattern balls loops = .ok plan) :
    plan.beats = max (loops * pattern.length) pattern.length ∧
    pattern.length ≤ plan.beats ∧
    buildSimulationPlanDefault pattern balls = buildSimulationPlan pattern balls 6 := by
  obtain ⟨st, hst, _, hbeats⟩ := buildSimulationPlan_ok pattern balls loops plan h
  refine ⟨hbeats, ?_, rfl⟩
  rw [hbeats]
  omega

/-- Evaluation witness for C6 on the concrete run (`repetitions = 2`,
`period = 1`). -/
theorem plan_totalBeats_witness :
    examplePlan.beats = max (2 * ([3] : List Nat).length) ([3] : List Nat).length ∧
    ([3] : List Nat).length ≤ examplePlan.beats ∧
    buildSimulationPlanDefault [3] 3 = buildSimulationPlan [3] 3 6 :=
  plan_totalBeats [3] 3 2 examplePlan (by decide) rfl

/-- **C7**: every emitted flight lands `throwHeight` beats after it starts
(`endBeat = startBeat + throwHeight`), and its `throwHeight` is
`pattern[startBeat mod period]`. -/
theorem plan_flight_heights (pattern : List Nat) (balls loops : Nat)
    (plan : SimulationPlan)
    (h : buildSimulationPlan pattern balls loops = .ok plan) :
    ∀ f ∈ plan.flights,
      f.endBeat = f.startBeat + f.throwValue ∧
      f.throwValue = throwAt pattern f.startBeat := by
  obtain ⟨st, hst, hfl, _⟩ := buildSimulationPlan_ok pattern balls loops plan h
  rw [hfl]
  intro f hf
  obtain ⟨h1, h2, _, _, _⟩ := (runBeats_inv pattern balls _ st hst).flightFields f hf
  exact ⟨h1, h2⟩

/-- Evaluation witness for C7 on the first flight of the concrete run. -/
theorem plan_flight_heights_witness :
    exampleFlightA.endBeat = exampleFlightA.startBeat + exampleFlightA.throwValue ∧
    exampleFlightA.throwValue = throwAt [3] exampleFlightA.startBeat :=
  plan_flight_heights [3] 3 2 examplePlan rfl exampleFlightA (by decide)

/-- **C2**, counterexample: the claim that the `b mod ballCount` fallback is
executed only at zero-height beats fails on the accepted pattern `"40"`
(2 balls): at beat 2 the fallback guard holds, the throw height there is 4,
and the plan emits a flight at beat 2 whose `ballId` is the fallback value
`2 mod 2 = 0`. -/
theorem fallback_nonzero_beat_counterexample :
    parseSiteswap ("40") = .ok ⟨[4, 0], 2, 2, 4⟩ ∧
    fallbackFires [4, 0] 2 2 = true ∧
    throwAt [4, 0] 2 = 4 ∧
    ∃ f ∈ planFlights (buildSimulationPlan [4, 0] 2 6),
      f.startBeat = 2 ∧ f.ballId = 2 % 2 ∧ f.throwValue = 4 := by
  refine ⟨rfl, rfl, rfl, ?_⟩
  decide

/-- **C2**, amended: there are patterns accepted by `parseSiteswap` for
which the fallback executes at a beat with non-zero throw height and is the
identity source of an emitted flight. -/
theorem fallback_can_source_emitted_flight :
    ∃ s d, parseSiteswap s = .ok d ∧
      ∃ b, fallbackFires d.pattern d.balls b = true ∧ 0 < throwAt d.pattern b ∧
        ∃ f ∈ planFlights (buildSimulationPlan d.pattern d.balls 6),
          f.startBeat = b ∧ f.ballId = b % d.balls := by
  refine ⟨"40", ⟨[4, 0], 2, 2, 4⟩, rfl, 2, rfl, by decide, ?_⟩
  decide

/-- **C8**: the input `"240"` survives the empty, invalid-character,
all-zero and integer-average checks (heights `[2,4,0]`, sum 6, period 3,
ball count 2) and then fails the landing-slot check, because indices 0 and
1 both land at slot 2 modulo the period. -/
theorem parse_240_fails_landing_collision :
    parseSiteswap ("240") = .error landingCollisionMsg ∧
    ((("240").toList.map Char.toLower).filter (fun c => !(isJsWhitespace c))).isEmpty
      = false ∧
    (("240").toList.map Char.toLower).filter (fun c => !(isJsWhitespace c))
      = ("240").toList ∧
    mapChars (("240").toList) = .ok [2, 4, 0] ∧
    ([2, 4, 0] : List Nat).all (fun value => value == 0) = false ∧
    ([2, 4, 0] : List Nat).foldl (fun acc value => acc + value) 0 = 6 ∧
    ([2, 4, 0] : List Nat).length = 3 ∧
    6 % 3 = 0 ∧ 6 / 3 = 2 ∧
    (0 + 2) % 3 = 2 ∧ (1 + 4) % 3 = 2 ∧
    checkLandingsAux 3 [2, 4, 0] 0 [] = .error landingCollisionMsg :=
  ⟨rfl, rfl, rfl, rfl, rfl, rfl, rfl, rfl, rfl, rfl, rfl, rfl⟩

/-- **C9**, counterexample: for `"240"` the landing collision is at slot 2,
but the surfaced message contains no digit at all, so it does not name the
colliding beat. -/
theorem landing_collision_message_names_no_beat :
    parseSiteswap ("240") = .error landingCollisionMsg ∧
    (0 + 2) % 3 = 2 ∧ (1 + 4) % 3 = 2 ∧
    landingCollisionMsg.toList.all (fun c => !(c.isDigit)) = true :=
  ⟨rfl, rfl, rfl, rfl⟩

/-- **C9**, amended: a landing-slot collision surfaces the one fixed
message `landingCollisionMsg`, independent of which beat collides:
`"240"` (collision at slot 2) and `"402"` (collision at slot 1) produce
the identical message. -/
theorem landing_collision_message_constant :
    parseSiteswap ("240") = .error landingCollisionMsg ∧
    parseSiteswap ("402") = .error landingCollisionMsg ∧
    (0 + 2) % 3 = 2 ∧ (1 + 4) % 3 = 2 ∧
    (0 + 4) % 3 = 1 ∧ (2 + 2) % 3 = 1 :=
  ⟨rfl, rfl, rfl, rfl, rfl, rfl⟩

/-- **C10**: the `balls < 1` branch of `parseSiteswap` is dead code — no
input string ever produces the zero-balls error, because any pattern that
passes the all-zero check has positive sum, and passing the
integer-average check then forces `sum / period ≥ 1`. -/
theorem zero_balls_branch_dead (s : String) :
    parseSiteswap s ≠ .error zeroBallsMsg := by
  intro h
  simp only [parseSiteswap] at h
  split at h
  · simp only [Except.error.injEq] at h
    exact absurd h (by decide)
  · split at h
    next e hmc =>
      simp only [Except.error.injEq] at h
      obtain ⟨c, hc⟩ := mapChars_error _ e hmc
      have hmsg : invalidCharMsg c = zeroBallsMsg := by
        rw [← hc]
        exact h
      have hlen : (invalidCharMsg c).length = zeroBallsMsg.length :=
        congrArg String.length hmsg
      rw [invalidCharMsg, String.length_append, String.length_append] at hlen
      rw [show (String.singleton c).length = 1 from rfl] at hlen
      rw [show ("Unsupported character \"" : String).length = 23 from rfl] at hlen
      rw [show ("\". Use 0-9 or a-z for throws." : String).length = 29 from rfl] at hlen
      rw [show zeroBallsMsg.length = 39 from rfl] at hlen
      omega
    next pattern0 hmc =>
      split at h
      · simp only [Except.error.injEq] at h
        exact absurd h (by decide)
      next hall =>
        split at h
        · simp only [Except.error.injEq] at h
          exact absurd h (by decide)
        next hmod =>
          split at h
          next e hchk =>
            simp only [Except.error.injEq] at h
            have := checkLandingsAux_error _ _ _ _ e hchk
            rw [this] at h
            exact absurd h (by decide)
          next u hchk =>
            split at h
            next hlt =>
              have hne : pattern0 ≠ [] := by
                rintro rfl
                simp at hall
              have hsum : 0 < pattern0.foldl (fun acc value => acc + value) 0 := by
                apply pos_foldl_add
                left
                simp only [List.all_eq_true, beq_iff_eq] at hall
                push_neg at hall
                obtain ⟨x, hx, hxne⟩ := hall
                exact ⟨x, hx, by omega⟩
              have hp : 0 < pattern0.length := List.length_pos.2 hne
              have hdvd : pattern0.length ∣ pattern0.foldl (fun acc value => acc + value) 0 :=
                Nat.dvd_of_mod_eq_zero (not_not.1 hmod)
              have hle := Nat.le_of_dvd hsum hdvd
              have hone := Nat.div_pos hle hp
              omega
            · simp at h
